import Mathlib

/-!
Verification of the lock-free fixed-capacity hash map
(`src/lockfree-map.hh`, `src/lock-free-iterators.hh`).

The map is shallowly embedded: machine pointers become allocation
identifiers (`PEntry.ptr`, drawn from an allocation counter
`MapState.nextId`), the fixed slot array `std::array<std::atomic<Element*>,
Size>` becomes a list of optional entries, and the two template hash
strategies become explicit function parameters.  The sequential semantics
of `AtomicHashMap::get` and `AtomicHashMap::get_or_emplace` is translated
line by line (the compare-and-swap succeeds when no interference occurred
between the load and the CAS; a separate single-iteration function
`emplaceIter` and a multi-thread interleaving model capture the concurrent
behaviour of the CAS paths).
-/

namespace LockfreeMap

/-- One `Element` of the map (`lockfree-map.hh`, struct `Element`):
an immutable stored hash, an immutable key and a value payload.
`ptr` models the heap address of the `new`-allocated element, so that
"same memory location" claims are expressible. -/
structure PEntry (K V : Type) where
  ptr  : Nat
  hash : Nat
  key  : K
  val  : V
deriving DecidableEq, Repr

/-- The template parameters of `AtomicHashMap` that do not depend on the
key type: capacity `Size`, probe bound `MaxTries`, and the second-order
hash strategy `RehashFunc`. -/
structure Cfg where
  Size     : Nat
  MaxTries : Nat
  Rehash   : Nat → Nat

/-- The mutable state of one `AtomicHashMap`: the slot array `hashmap_`
(each slot an optional pointer to a published element) together with the
allocation counter that hands out fresh element addresses. -/
structure MapState (K V : Type) where
  slots  : List (Option (PEntry K V))
  nextId : Nat
deriving DecidableEq, Repr

variable {K V : Type}

/-- The content of slot `i` (an atomic load of `hashmap_[i]`). -/
def slotAt (s : MapState K V) (i : Nat) : Option (PEntry K V) :=
  s.slots.getD i none

/-- `AtomicHashMap::get`, inner loop (`lockfree-map.hh` lines 101-116),
result only.  `h` is the precomputed primary hash `hasher(key)`, `hash2`
the probe cursor, and `fuel = MaxTries - tries` the remaining attempts.
An empty slot returns null; a stored hash equal to `h` returns the
element; a nonzero non-matching stored hash advances the cursor with the
rehash strategy; a zero non-matching stored hash consumes the try without
advancing the cursor. -/
def getAux (c : Cfg) (s : MapState K V) (h : Nat) :
    Nat → Nat → Option (PEntry K V)
  | _, 0 => none
  | hash2, fuel+1 =>
    match slotAt s (hash2 % c.Size) with
    | none => none
    | some e =>
      if e.hash = h then some e
      else if e.hash ≠ 0 then getAux c s h (c.Rehash hash2) fuel
      else getAux c s h hash2 fuel

/-- `AtomicHashMap::get` (`lockfree-map.hh` lines 94-119): compute the
primary hash and run the probe loop with `MaxTries` attempts.  The C++
function returns `ValueType*`, i.e. a pointer into the found element;
here the whole found element (with its address) is returned. -/
def get (c : Cfg) (Hash : K → Nat) (s : MapState K V) (k : K) :
    Option (PEntry K V) :=
  getAux c s (Hash k) (Hash k) c.MaxTries

/-- `AtomicHashMap::get`, instrumented translation of the same loop:
threads the map state through every iteration (the loop body performs
loads only, so each branch passes the state on unchanged) and counts the
executed loop iterations.  Used for the frame and termination claims. -/
def getFullAux (c : Cfg) (s : MapState K V) (h : Nat) :
    Nat → Nat → MapState K V × Option (PEntry K V) × Nat
  | _, 0 => (s, none, 0)
  | hash2, fuel+1 =>
    match slotAt s (hash2 % c.Size) with
    | none => (s, none, 1)
    | some e =>
      if e.hash = h then (s, some e, 1)
      else if e.hash ≠ 0 then
        let r := getFullAux c s h (c.Rehash hash2) fuel
        (r.1, r.2.1, r.2.2 + 1)
      else
        let r := getFullAux c s h hash2 fuel
        (r.1, r.2.1, r.2.2 + 1)

/-- The iterator constructor (`lock-free-iterators.hh`, `increment()`),
state-passing: starting at bucket `b` with `fuel = Size - b` remaining
buckets, scan forward to the first occupied slot; each step performs one
atomic load and leaves the map unchanged.  Returns the state and the
final bucket index (`Size` when no occupied slot remains). -/
def iterInitAuxS (s : MapState K V) : Nat → Nat → MapState K V × Nat
  | 0, b => (s, b)
  | fuel+1, b =>
    match slotAt s b with
    | some _ => (s, b)
    | none => iterInitAuxS s fuel (b+1)

/-- Bucket index produced by constructing `iterator(*this, b)`:
the first occupied bucket `≥ b`, or `Size` if none (the `end()`
sentinel). -/
def iterInit (c : Cfg) (s : MapState K V) (b : Nat) : Nat :=
  (iterInitAuxS s (c.Size - b) b).2

/-- `AtomicHashMap::get_or_emplace`, inner loop (`lockfree-map.hh` lines
131-161), sequential semantics: with no interference between the load and
the compare-and-swap, the CAS on a slot that was loaded empty succeeds,
publishing a freshly allocated element `⟨nextId, h, key, value⟩`.
Returns the final state, the bucket index of the returned iterator
(`Size` for `end()`), and the `inserted` flag. -/
def goeAux (c : Cfg) (h : Nat) (k : K) (v : V) (s : MapState K V) :
    Nat → Nat → MapState K V × Nat × Bool
  | _, 0 => (s, iterInit c s c.Size, false)
  | hash2, fuel+1 =>
    let bucket := hash2 % c.Size
    match slotAt s bucket with
    | none =>
      let e : PEntry K V := ⟨s.nextId, h, k, v⟩
      let s' : MapState K V := ⟨s.slots.set bucket (some e), s.nextId + 1⟩
      (s', iterInit c s' bucket, true)
    | some e =>
      if e.hash = h then (s, iterInit c s bucket, false)
      else if e.hash ≠ 0 then goeAux c h k v s (c.Rehash hash2) fuel
      else goeAux c h k v s hash2 fuel

/-- `AtomicHashMap::get_or_emplace` (`lockfree-map.hh` lines 121-162),
sequential semantics. -/
def getOrEmplace (c : Cfg) (Hash : K → Nat) (s : MapState K V) (k : K)
    (v : V) : MapState K V × Nat × Bool :=
  goeAux c (Hash k) k v s (Hash k) c.MaxTries

/-- `get_or_emplace` inner loop, instrumented with the count of executed
loop iterations. -/
def goeFullAux (c : Cfg) (h : Nat) (k : K) (v : V) (s : MapState K V) :
    Nat → Nat → (MapState K V × Nat × Bool) × Nat
  | _, 0 => ((s, iterInit c s c.Size, false), 0)
  | hash2, fuel+1 =>
    let bucket := hash2 % c.Size
    match slotAt s bucket with
    | none =>
      let e : PEntry K V := ⟨s.nextId, h, k, v⟩
      let s' : MapState K V := ⟨s.slots.set bucket (some e), s.nextId + 1⟩
      ((s', iterInit c s' bucket, true), 1)
    | some e =>
      if e.hash = h then ((s, iterInit c s bucket, false), 1)
      else if e.hash ≠ 0 then
        let r := goeFullAux c h k v s (c.Rehash hash2) fuel
        (r.1, r.2 + 1)
      else
        let r := goeFullAux c h k v s hash2 fuel
        (r.1, r.2 + 1)

/-! ### One iteration of `get_or_emplace` with interference

The compare-and-swap can fail only when another thread published an
element between this thread's load and its CAS.  `emplaceIter` is the
translation of one iteration of the `get_or_emplace` loop
(`lockfree-map.hh` lines 133-158) in which the value observed by the
initial load (`loadVal`) and the value held by the slot at CAS time
(`casVal`) are separate inputs; the CAS compares against the expected
`nullptr` and succeeds exactly when `casVal` is still empty. -/

/-- Fate of the speculatively constructed candidate `Element` in one
iteration: no candidate was constructed, the candidate was published into
the slot, the candidate was `delete`d, or the candidate was kept
allocated but unpublished and unreachable (a leak). -/
inductive CandFate where
  | noCandidate
  | published
  | freed
  | retained
deriving DecidableEq, Repr

/-- Control-flow outcome of one iteration of the `get_or_emplace` loop:
return from the function with a bucket and the `inserted` flag, or fall
through to `++tries` and the next iteration with the given probe
cursor. -/
inductive IterOut where
  | ret (bucket : Nat) (inserted : Bool)
  | cont (hash2 : Nat)
deriving DecidableEq, Repr

/-- One iteration of the `get_or_emplace` loop (`lockfree-map.hh` lines
133-158) with explicit load/CAS observations.  If the load returns an
element, the three-way dispatch on its stored hash runs without
constructing a candidate.  If the load returns null, a candidate is
constructed and the CAS is attempted: on success the candidate is
published; on failure the freshly observed element's stored hash drives
the same three-way dispatch, and the source `delete`s the candidate in
the matching and the nonzero branches only — in the zero non-matching
branch the candidate is retained (neither published nor freed). -/
def emplaceIter (c : Cfg) (h hash2 : Nat)
    (loadVal casVal : Option (PEntry K V)) : IterOut × CandFate :=
  let bucket := hash2 % c.Size
  match loadVal with
  | none =>
    match casVal with
    | none => (.ret bucket true, .published)
    | some e =>
      if e.hash = h then (.ret bucket false, .freed)
      else if e.hash ≠ 0 then (.cont (c.Rehash hash2), .freed)
      else (.cont hash2, .retained)
  | some e =>
    if e.hash = h then (.ret bucket false, .noCandidate)
    else if e.hash ≠ 0 then (.cont (c.Rehash hash2), .noCandidate)
    else (.cont hash2, .noCandidate)

/-! ### The probe trace

Both loops drive the same probe cursor: starting from the primary hash,
the cursor is advanced by the rehash strategy exactly when the probed
slot holds an element with a nonzero stored hash different from the
target hash (empty slots and matching slots end the loop, so what the
cursor would do there is irrelevant; zero-hash slots consume a try
without advancing). -/

/-- Cursor evolution for one probe attempt against state `s` with target
hash `h` (`hash2 = rehasher(hash2)` exactly in the nonzero non-matching
branch of both loops). -/
def probeStep (c : Cfg) (s : MapState K V) (h hash2 : Nat) : Nat :=
  match slotAt s (hash2 % c.Size) with
  | none => hash2
  | some e => if e.hash = h then hash2
              else if e.hash ≠ 0 then c.Rehash hash2 else hash2

/-- The probe cursor at attempt `t` (0-based), starting from cursor
`hash2`. -/
def cursorAt (c : Cfg) (s : MapState K V) (h : Nat) : Nat → Nat → Nat
  | hash2, 0 => hash2
  | hash2, t+1 => cursorAt c s h (probeStep c s h hash2) t

/-- The slot probed at attempt `t`. -/
def probeSlot (c : Cfg) (s : MapState K V) (h hash2 t : Nat) :
    Option (PEntry K V) :=
  slotAt s (cursorAt c s h hash2 t % c.Size)

/-- Attempt `t` probes a slot whose element's stored hash matches the
target hash. -/
def matchB (c : Cfg) (s : MapState K V) (h hash2 t : Nat) : Bool :=
  match probeSlot c s h hash2 t with
  | some e => decide (e.hash = h)
  | none => false

/-- Attempt `t` probes an empty slot. -/
def emptyB (c : Cfg) (s : MapState K V) (h hash2 t : Nat) : Bool :=
  (probeSlot c s h hash2 t).isNone

/-- Attempt `t` probes an occupied slot whose stored hash does not match
the target hash. -/
def occNMB (c : Cfg) (s : MapState K V) (h hash2 t : Nat) : Bool :=
  match probeSlot c s h hash2 t with
  | some e => decide (e.hash ≠ h)
  | none => false

/-! ### Sequences of map operations

A client of the map interleaves lookups, insertions and iterator
traversals; `runOps` executes such a sequence against the sequential
semantics. -/

/-- One client operation: a `get`, a `get_or_emplace`, or an iterator
construction/advance (scanning forward from bucket `b`). -/
inductive Op (K V : Type) where
  | get (k : K)
  | emplace (k : K) (v : V)
  | iter (b : Nat)

/-- Effect of one operation on the map state. -/
def applyOp (c : Cfg) (Hash : K → Nat) (s : MapState K V) :
    Op K V → MapState K V
  | .get k => (getFullAux c s (Hash k) (Hash k) c.MaxTries).1
  | .emplace k v => (goeAux c (Hash k) k v s (Hash k) c.MaxTries).1
  | .iter b => (iterInitAuxS s (c.Size - b) b).1

/-- Effect of a sequence of operations on the map state. -/
def runOps (c : Cfg) (Hash : K → Nat) :
    MapState K V → List (Op K V) → MapState K V
  | s, [] => s
  | s, op :: ops => runOps c Hash (applyOp c Hash s op) ops

/-! ### Interleaved executions of `get_or_emplace` for one key

Each `get_or_emplace` call decomposes into atomic actions: the loads of
the probe loop and the compare-and-swap.  A thread is therefore a small
state machine; the system interleaves the atomic actions of the threads
according to an arbitrary schedule.  All threads probe for the same key
(the scenario of the single-publish claim). -/

/-- Thread-local control state of one in-flight `get_or_emplace` call:
about to run the loop head and load the probed slot; between a load that
returned null and the compare-and-swap (the candidate element exists but
is thread-local); or returned with an iterator bucket and the `inserted`
flag. -/
inductive TState where
  | load (hash2 tries : Nat)
  | cas (hash2 tries : Nat)
  | done (pos : Nat) (inserted : Bool)
deriving DecidableEq, Repr

/-- One atomic action of a thread running `get_or_emplace(key)` with
primary hash `h`, value argument `v`: either the loop-head check plus the
slot load, or the compare-and-swap (which publishes a fresh element when
the slot is still empty and otherwise dispatches on the observed stored
hash, exactly as `lockfree-map.hh` lines 133-158).  A finished thread
stutters. -/
def tStep (c : Cfg) (h : Nat) (k : K) (v : V) (s : MapState K V) :
    TState → MapState K V × TState
  | .load hash2 tries =>
    if tries < c.MaxTries then
      match slotAt s (hash2 % c.Size) with
      | none => (s, .cas hash2 tries)
      | some e =>
        if e.hash = h then (s, .done (iterInit c s (hash2 % c.Size)) false)
        else if e.hash ≠ 0 then (s, .load (c.Rehash hash2) (tries + 1))
        else (s, .load hash2 (tries + 1))
    else (s, .done (iterInit c s c.Size) false)
  | .cas hash2 tries =>
    match slotAt s (hash2 % c.Size) with
    | none =>
      let e : PEntry K V := ⟨s.nextId, h, k, v⟩
      let s' : MapState K V :=
        ⟨s.slots.set (hash2 % c.Size) (some e), s.nextId + 1⟩
      (s', .done (iterInit c s' (hash2 % c.Size)) true)
    | some e =>
      if e.hash = h then (s, .done (iterInit c s (hash2 % c.Size)) false)
      else if e.hash ≠ 0 then (s, .load (c.Rehash hash2) (tries + 1))
      else (s, .load hash2 (tries + 1))
  | .done p i => (s, .done p i)

/-- A system configuration: the shared map state and the thread pool
(each thread paired with the value argument of its call). -/
structure Sys (K V : Type) where
  s : MapState K V
  threads : List (TState × V)
deriving DecidableEq, Repr

/-- Schedule thread `i` for one atomic action (out-of-range indices
stutter). -/
def sysStep (c : Cfg) (h : Nat) (k : K) (σ : Sys K V) (i : Nat) :
    Sys K V :=
  match σ.threads[i]? with
  | none => σ
  | some (t, v) =>
    let r := tStep c h k v σ.s t
    ⟨r.1, σ.threads.set i (r.2, v)⟩

/-- Run a schedule (a list of thread indices) from a configuration. -/
def sysRun (c : Cfg) (h : Nat) (k : K) (σ : Sys K V)
    (sched : List Nat) : Sys K V :=
  sched.foldl (sysStep c h k) σ

/-- The thread has returned from its call. -/
def isDone : TState → Bool
  | .done _ _ => true
  | _ => false

/-- The thread has returned with `inserted = true`. -/
def doneTrue : TState → Bool
  | .done _ true => true
  | _ => false

/-- The thread has returned with an iterator positioned at bucket `b`. -/
def doneAt (b : Nat) : TState → Bool
  | .done p _ => decide (p = b)
  | _ => false

/-- Slot `b` holds a published element with stored hash `hsh` and key
`k`. -/
def slotIsEntry [DecidableEq K] (s : MapState K V) (b hsh : Nat)
    (k : K) : Bool :=
  match slotAt s b with
  | some e => decide (e.hash = hsh) && decide (e.key = k)
  | none => false

/-- Invariant of the interleaved executions in which every thread runs
`get_or_emplace` for the one key `k` with primary hash `h` against an
initially empty map: only the home bucket `h % Size` is ever written;
whatever it holds was published for this key; every thread is in one of
four shapes (about to load with an untouched cursor, about to CAS,
returned `true` at the home bucket, returned `false` at the home
bucket); the number of threads that returned `true` is 0 while the home
bucket is empty and exactly 1 once it is occupied; and a thread can have
returned `false` only if the home bucket is occupied. -/
def C3Inv (c : Cfg) (h : Nat) (k : K) (σ : Sys K V) : Prop :=
  σ.s.slots.length = c.Size ∧
  (∀ i, i ≠ h % c.Size → slotAt σ.s i = none) ∧
  (∀ e, slotAt σ.s (h % c.Size) = some e → e.hash = h ∧ e.key = k) ∧
  (∀ tv ∈ σ.threads, tv.1 = TState.load h 0 ∨ tv.1 = TState.cas h 0 ∨
    tv.1 = TState.done (h % c.Size) true ∨
    tv.1 = TState.done (h % c.Size) false) ∧
  ((slotAt σ.s (h % c.Size) = none ∧
      σ.threads.countP (fun tv => doneTrue tv.1) = 0) ∨
    ((slotAt σ.s (h % c.Size)).isSome = true ∧
      σ.threads.countP (fun tv => doneTrue tv.1) = 1)) ∧
  (∀ tv ∈ σ.threads, tv.1 = TState.done (h % c.Size) false →
    (slotAt σ.s (h % c.Size)).isSome = true)

/-- Frame of a sequential `get_or_emplace` call: either it leaves the
map untouched, or it publishes exactly one freshly allocated element
into exactly one previously empty slot. -/
def emplacePublishFrame (c : Cfg) (Hash : K → Nat) (s : MapState K V)
    (k : K) (v : V) : Prop :=
  (getOrEmplace c Hash s k v).1 = s ∨
  ∃ b, slotAt s b = none ∧
    (getOrEmplace c Hash s k v).1.slots
      = s.slots.set b (some ⟨s.nextId, Hash k, k, v⟩) ∧
    (getOrEmplace c Hash s k v).1.nextId = s.nextId + 1

/-! ### Concrete instances used by the probe-bound scenario

`MaxTries = 4`, a hash strategy returning the constant primary hash `7`
for every key, and an identity rehash strategy, over a capacity-8 map of
`Nat` keys and values. -/

/-- Capacity 8, probe bound 4, identity rehash. -/
def cfg5 : Cfg := ⟨8, 4, id⟩

/-- Pathological hash strategy: every key has primary hash 7. -/
def hash5 : Nat → Nat := fun _ => 7

/-- The empty capacity-8 map. -/
def c5_s0 : MapState Nat Nat := ⟨List.replicate 8 none, 0⟩

/-- State after `get_or_emplace` has handled key 1. -/
def c5_s1 : MapState Nat Nat := (getOrEmplace cfg5 hash5 c5_s0 1 10).1

/-- State after `get_or_emplace` has handled keys 1, 2. -/
def c5_s2 : MapState Nat Nat := (getOrEmplace cfg5 hash5 c5_s1 2 20).1

/-- State after `get_or_emplace` has handled keys 1, 2, 3. -/
def c5_s3 : MapState Nat Nat := (getOrEmplace cfg5 hash5 c5_s2 3 30).1

/-- State after `get_or_emplace` has handled keys 1, 2, 3, 4. -/
def c5_s4 : MapState Nat Nat := (getOrEmplace cfg5 hash5 c5_s3 4 40).1

/-! ### Helper lemmas -/

theorem slotAt_mk_set_self (sl : List (Option (PEntry K V))) (n b : Nat)
    (e : Option (PEntry K V)) (hb : b < sl.length) :
    slotAt (⟨sl.set b e, n⟩ : MapState K V) b = e := by
  simp [slotAt, List.getD_eq_getElem?_getD, List.getElem?_set_eq hb]

theorem slotAt_mk_set_ne (sl : List (Option (PEntry K V))) (n b i : Nat)
    (e : Option (PEntry K V)) (hbi : b ≠ i) :
    slotAt (⟨sl.set b e, n⟩ : MapState K V) i
      = slotAt (⟨sl, n⟩ : MapState K V) i := by
  simp [slotAt, List.getD_eq_getElem?_getD, List.getElem?_set_ne hbi]

theorem slotAt_replicate_none (n m i : Nat) :
    slotAt (⟨List.replicate n none, m⟩ : MapState K V) i = none := by
  simp only [slotAt, List.getD_eq_getElem?_getD, List.getElem?_replicate]
  split <;> rfl

theorem iterInitAuxS_fst (s : MapState K V) :
    ∀ fuel b, (iterInitAuxS s fuel b).1 = s := by
  intro fuel
  induction fuel with
  | zero => intro b; rfl
  | succ fuel ih =>
    intro b
    cases h : slotAt s b with
    | none => simp [iterInitAuxS, h, ih]
    | some e => simp [iterInitAuxS, h]

theorem iterInit_occupied (c : Cfg) (s : MapState K V) (b : Nat)
    (hb : b < c.Size) (e : PEntry K V) (hocc : slotAt s b = some e) :
    iterInit c s b = b := by
  unfold iterInit
  obtain ⟨m, hm⟩ : ∃ m, c.Size - b = m + 1 := ⟨c.Size - b - 1, by omega⟩
  rw [hm]
  simp [iterInitAuxS, hocc]

theorem iterInit_end (c : Cfg) (s : MapState K V) :
    iterInit c s c.Size = c.Size := by
  simp [iterInit, Nat.sub_self, iterInitAuxS]

theorem getFullAux_fst (c : Cfg) (s : MapState K V) (h : Nat) :
    ∀ fuel hash2, (getFullAux c s h hash2 fuel).1 = s := by
  intro fuel
  induction fuel with
  | zero => intro hash2; rfl
  | succ fuel ih =>
    intro hash2
    cases hslot : slotAt s (hash2 % c.Size) with
    | none => simp [getFullAux, hslot]
    | some e =>
      simp only [getFullAux, hslot]
      by_cases he : e.hash = h
      · rw [if_pos he]
      · rw [if_neg he]
        by_cases h0 : e.hash = 0
        · rw [if_neg (by simp [h0])]
          exact ih hash2
        · rw [if_pos h0]
          exact ih (c.Rehash hash2)

theorem getFullAux_result (c : Cfg) (s : MapState K V) (h : Nat) :
    ∀ fuel hash2, (getFullAux c s h hash2 fuel).2.1 = getAux c s h hash2 fuel := by
  intro fuel
  induction fuel with
  | zero => intro hash2; rfl
  | succ fuel ih =>
    intro hash2
    cases hslot : slotAt s (hash2 % c.Size) with
    | none => simp [getFullAux, getAux, hslot]
    | some e =>
      simp only [getFullAux, getAux, hslot]
      by_cases he : e.hash = h
      · rw [if_pos he, if_pos he]
      · rw [if_neg he, if_neg he]
        by_cases h0 : e.hash = 0
        · rw [if_neg (by simp [h0]), if_neg (by simp [h0])]
          exact ih hash2
        · rw [if_pos h0, if_pos h0]
          exact ih (c.Rehash hash2)

theorem getFullAux_count_le (c : Cfg) (s : MapState K V) (h : Nat) :
    ∀ fuel hash2, (getFullAux c s h hash2 fuel).2.2 ≤ fuel := by
  intro fuel
  induction fuel with
  | zero => intro hash2; exact Nat.le_refl 0
  | succ fuel ih =>
    intro hash2
    cases hslot : slotAt s (hash2 % c.Size) with
    | none => simp [getFullAux, hslot]
    | some e =>
      simp only [getFullAux, hslot]
      by_cases he : e.hash = h
      · rw [if_pos he]; show 1 ≤ fuel + 1; omega
      · rw [if_neg he]
        by_cases h0 : e.hash = 0
        · rw [if_neg (by simp [h0])]
          have := ih hash2
          show (getFullAux c s h hash2 fuel).2.2 + 1 ≤ fuel + 1
          omega
        · rw [if_pos h0]
          have := ih (c.Rehash hash2)
          show (getFullAux c s h (c.Rehash hash2) fuel).2.2 + 1 ≤ fuel + 1
          omega

theorem goeFullAux_fst (c : Cfg) (h : Nat) (k : K) (v : V)
    (s : MapState K V) :
    ∀ fuel hash2, (goeFullAux c h k v s hash2 fuel).1 = goeAux c h k v s hash2 fuel := by
  intro fuel
  induction fuel with
  | zero => intro hash2; rfl
  | succ fuel ih =>
    intro hash2
    cases hslot : slotAt s (hash2 % c.Size) with
    | none => simp [goeFullAux, goeAux, hslot]
    | some e =>
      simp only [goeFullAux, goeAux, hslot]
      by_cases he : e.hash = h
      · rw [if_pos he, if_pos he]
      · rw [if_neg he, if_neg he]
        by_cases h0 : e.hash = 0
        · rw [if_neg (by simp [h0]), if_neg (by simp [h0])]
          exact ih hash2
        · rw [if_pos h0, if_pos h0]
          exact ih (c.Rehash hash2)

theorem goeFullAux_count_le (c : Cfg) (h : Nat) (k : K) (v : V)
    (s : MapState K V) :
    ∀ fuel hash2, (goeFullAux c h k v s hash2 fuel).2 ≤ fuel := by
  intro fuel
  induction fuel with
  | zero => intro hash2; exact Nat.le_refl 0
  | succ fuel ih =>
    intro hash2
    cases hslot : slotAt s (hash2 % c.Size) with
    | none => simp [goeFullAux, hslot]
    | some e =>
      simp only [goeFullAux, hslot]
      by_cases he : e.hash = h
      · rw [if_pos he]; show 1 ≤ fuel + 1; omega
      · rw [if_neg he]
        by_cases h0 : e.hash = 0
        · rw [if_neg (by simp [h0])]
          have := ih hash2
          show (goeFullAux c h k v s hash2 fuel).2 + 1 ≤ fuel + 1
          omega
        · rw [if_pos h0]
          have := ih (c.Rehash hash2)
          show (goeFullAux c h k v s (c.Rehash hash2) fuel).2 + 1 ≤ fuel + 1
          omega

theorem goeAux_preserves_slot (c : Cfg) (h : Nat) (k : K) (v : V) :
    ∀ (fuel hash2 : Nat) (s : MapState K V) (i : Nat) (e : PEntry K V),
      slotAt s i = some e →
      slotAt (goeAux c h k v s hash2 fuel).1 i = some e := by
  intro fuel
  induction fuel with
  | zero => intro hash2 s i e hi; exact hi
  | succ fuel ih =>
    intro hash2 s i e hi
    cases hslot : slotAt s (hash2 % c.Size) with
    | none =>
      simp only [goeAux, hslot]
      by_cases hib : hash2 % c.Size = i
      · rw [hib] at hslot; rw [hslot] at hi; exact absurd hi (by simp)
      · cases s with
        | mk sl n => exact (slotAt_mk_set_ne sl (n+1) _ i _ hib).trans hi
    | some e' =>
      simp only [goeAux, hslot]
      by_cases he : e'.hash = h
      · rw [if_pos he]; exact hi
      · rw [if_neg he]
        by_cases h0 : e'.hash = 0
        · rw [if_neg (by simp [h0])]
          exact ih hash2 s i e hi
        · rw [if_pos h0]
          exact ih (c.Rehash hash2) s i e hi

theorem goeAux_frame (c : Cfg) (h : Nat) (k : K) (v : V) :
    ∀ (fuel hash2 : Nat) (s : MapState K V),
      (goeAux c h k v s hash2 fuel).1 = s ∨
      ∃ b, slotAt s b = none ∧
        (goeAux c h k v s hash2 fuel).1.slots
          = s.slots.set b (some ⟨s.nextId, h, k, v⟩) ∧
        (goeAux c h k v s hash2 fuel).1.nextId = s.nextId + 1 := by
  intro fuel
  induction fuel with
  | zero => intro hash2 s; left; rfl
  | succ fuel ih =>
    intro hash2 s
    cases hslot : slotAt s (hash2 % c.Size) with
    | none =>
      right
      refine ⟨hash2 % c.Size, hslot, ?_, ?_⟩ <;> simp [goeAux, hslot]
    | some e' =>
      simp only [goeAux, hslot]
      by_cases he : e'.hash = h
      · rw [if_pos he]; left; rfl
      · rw [if_neg he]
        by_cases h0 : e'.hash = 0
        · rw [if_neg (by simp [h0])]
          exact ih hash2 s
        · rw [if_pos h0]
          exact ih (c.Rehash hash2) s

theorem applyOp_preserves_slot (c : Cfg) (Hash : K → Nat)
    (s : MapState K V) (op : Op K V) (i : Nat) (e : PEntry K V)
    (hi : slotAt s i = some e) :
    slotAt (applyOp c Hash s op) i = some e := by
  cases op with
  | get k => rw [applyOp, getFullAux_fst]; exact hi
  | emplace k v => exact goeAux_preserves_slot c (Hash k) k v _ _ s i e hi
  | iter b => rw [applyOp, iterInitAuxS_fst]; exact hi

theorem runOps_preserves_slot (c : Cfg) (Hash : K → Nat) :
    ∀ (ops : List (Op K V)) (s : MapState K V) (i : Nat) (e : PEntry K V),
      slotAt s i = some e →
      slotAt (runOps c Hash s ops) i = some e := by
  intro ops
  induction ops with
  | nil => intro s i e hi; exact hi
  | cons op ops ih =>
    intro s i e hi
    exact ih _ i e (applyOp_preserves_slot c Hash s op i e hi)

theorem goeAux_stuck (c : Cfg) (h : Nat) (k : K) (v : V)
    (s : MapState K V) (hash2 : Nat) (e : PEntry K V)
    (hslot : slotAt s (hash2 % c.Size) = some e)
    (h0 : e.hash = 0) (hne : e.hash ≠ h) :
    ∀ fuel, goeAux c h k v s hash2 fuel = (s, iterInit c s c.Size, false) := by
  intro fuel
  induction fuel with
  | zero => rfl
  | succ fuel ih =>
    simp only [goeAux, hslot]
    rw [if_neg hne, if_neg (by simp [h0])]
    exact ih

theorem getAux_stuck (c : Cfg) (h : Nat) (s : MapState K V) (hash2 : Nat)
    (e : PEntry K V) (hslot : slotAt s (hash2 % c.Size) = some e)
    (h0 : e.hash = 0) (hne : e.hash ≠ h) :
    ∀ fuel, getAux c s h hash2 fuel = none := by
  intro fuel
  induction fuel with
  | zero => rfl
  | succ fuel ih =>
    simp only [getAux, hslot]
    rw [if_neg hne, if_neg (by simp [h0])]
    exact ih

theorem countP_set {α : Type} (p : α → Bool) :
    ∀ (l : List α) (i : Nat) (a b : α), l[i]? = some a →
      (l.set i b).countP p + (if p a then 1 else 0)
        = l.countP p + (if p b then 1 else 0) := by
  intro l
  induction l with
  | nil => intro i a b hl; simp at hl
  | cons x l ih =>
    intro i a b hl
    cases i with
    | zero =>
      simp only [List.getElem?_cons_zero, Option.some_inj] at hl
      subst hl
      simp only [List.set_cons_zero, List.countP_cons]
      omega
    | succ i =>
      simp only [List.getElem?_cons_succ] at hl
      have := ih i a b hl
      simp only [List.set_cons_succ, List.countP_cons]
      omega

theorem goe_publish_spec (c : Cfg) (h : Nat) (k : K) (hS : 0 < c.Size) :
    ∀ (fuel hash2 : Nat) (v : V) (s s₁ : MapState K V) (b : Nat),
      goeAux c h k v s hash2 fuel = (s₁, b, true) →
      s.slots.length = c.Size →
      slotAt s₁ b = some ⟨s.nextId, h, k, v⟩ ∧ b < c.Size ∧
      ∀ (T : MapState K V),
        (∀ i e, slotAt s₁ i = some e → slotAt T i = some e) →
        getAux c T h hash2 fuel = some ⟨s.nextId, h, k, v⟩ ∧
        ∀ v', goeAux c h k v' T hash2 fuel = (T, b, false) := by
  intro fuel
  induction fuel with
  | zero =>
    intro hash2 v s s₁ b hpub hlen
    simp [goeAux] at hpub
  | succ fuel ih =>
    intro hash2 v s s₁ b hpub hlen
    cases hslot : slotAt s (hash2 % c.Size) with
    | none =>
      have hbS : hash2 % c.Size < c.Size := Nat.mod_lt _ hS
      have hset : slotAt
          (⟨s.slots.set (hash2 % c.Size) (some ⟨s.nextId, h, k, v⟩),
            s.nextId + 1⟩ : MapState K V) (hash2 % c.Size)
          = some ⟨s.nextId, h, k, v⟩ :=
        slotAt_mk_set_self _ _ _ _ (by rw [hlen]; exact hbS)
      have hiter : iterInit c
          (⟨s.slots.set (hash2 % c.Size) (some ⟨s.nextId, h, k, v⟩),
            s.nextId + 1⟩ : MapState K V) (hash2 % c.Size)
          = hash2 % c.Size :=
        iterInit_occupied c _ _ hbS _ hset
      simp only [goeAux, hslot, hiter] at hpub
      have hs₁ : s₁ = ⟨s.slots.set (hash2 % c.Size)
          (some ⟨s.nextId, h, k, v⟩), s.nextId + 1⟩ :=
        (congrArg Prod.fst hpub).symm
      have hb : b = hash2 % c.Size :=
        (congrArg (fun p => p.2.1) hpub).symm
      subst hs₁; subst hb
      refine ⟨hset, hbS, ?_⟩
      intro T hmono
      have hT : slotAt T (hash2 % c.Size) = some ⟨s.nextId, h, k, v⟩ :=
        hmono _ _ hset
      constructor
      · simp [getAux, hT]
      · intro v'
        simp [goeAux, hT, iterInit_occupied c T _ hbS _ hT]
    | some e' =>
      by_cases he : e'.hash = h
      · exfalso
        simp only [goeAux, hslot] at hpub
        rw [if_pos he] at hpub
        exact Bool.false_ne_true (congrArg (fun p => p.2.2) hpub)
      · by_cases h0 : e'.hash = 0
        · exfalso
          rw [goeAux_stuck c h k v s hash2 e' hslot h0 he] at hpub
          exact Bool.false_ne_true (congrArg (fun p => p.2.2) hpub)
        · have hpub' : goeAux c h k v s (c.Rehash hash2) fuel = (s₁, b, true) := by
            simp only [goeAux, hslot] at hpub
            rw [if_neg he, if_pos h0] at hpub
            exact hpub
          obtain ⟨h1, h2, h3⟩ := ih (c.Rehash hash2) v s s₁ b hpub' hlen
          have hs₁slot : slotAt s₁ (hash2 % c.Size) = some e' := by
            have := goeAux_preserves_slot c h k v fuel (c.Rehash hash2) s
              (hash2 % c.Size) e' hslot
            rw [hpub'] at this
            exact this
          refine ⟨h1, h2, ?_⟩
          intro T hmono
          have hT : slotAt T (hash2 % c.Size) = some e' := hmono _ _ hs₁slot
          obtain ⟨hg, hgoe⟩ := h3 T hmono
          constructor
          · simp only [getAux, hT]
            rw [if_neg he, if_pos h0]
            exact hg
          · intro v'
            simp only [goeAux, hT]
            rw [if_neg he, if_pos h0]
            exact hgoe v'

theorem getAux_succ_none (fuel hash2 : Nat) (c : Cfg) (s : MapState K V)
    (h : Nat) (hslot : slotAt s (hash2 % c.Size) = none) :
    getAux c s h hash2 (fuel+1) = none := by
  simp [getAux, hslot]

theorem getAux_succ_match (fuel hash2 : Nat) (c : Cfg) (s : MapState K V)
    (h : Nat) (e₀ : PEntry K V) (hslot : slotAt s (hash2 % c.Size) = some e₀)
    (he : e₀.hash = h) :
    getAux c s h hash2 (fuel+1) = some e₀ := by
  simp only [getAux, hslot]
  rw [if_pos he]

theorem getAux_succ_advance (fuel hash2 : Nat) (c : Cfg) (s : MapState K V)
    (h : Nat) (e₀ : PEntry K V) (hslot : slotAt s (hash2 % c.Size) = some e₀)
    (he : ¬ e₀.hash = h) (h0 : ¬ e₀.hash = 0) :
    getAux c s h hash2 (fuel+1) = getAux c s h (c.Rehash hash2) fuel := by
  simp only [getAux, hslot]
  rw [if_neg he, if_pos h0]

theorem getAux_succ_stuck (fuel hash2 : Nat) (c : Cfg) (s : MapState K V)
    (h : Nat) (e₀ : PEntry K V) (hslot : slotAt s (hash2 % c.Size) = some e₀)
    (he : ¬ e₀.hash = h) (h0 : e₀.hash = 0) :
    getAux c s h hash2 (fuel+1) = getAux c s h hash2 fuel := by
  simp only [getAux, hslot]
  rw [if_neg he, if_neg (by simp [h0])]

theorem goeAux_succ_advance (fuel hash2 : Nat) (c : Cfg) (h : Nat) (k : K)
    (v : V) (s : MapState K V) (e₀ : PEntry K V)
    (hslot : slotAt s (hash2 % c.Size) = some e₀)
    (he : ¬ e₀.hash = h) (h0 : ¬ e₀.hash = 0) :
    goeAux c h k v s hash2 (fuel+1) = goeAux c h k v s (c.Rehash hash2) fuel := by
  simp only [goeAux, hslot]
  rw [if_neg he, if_pos h0]

theorem goeAux_succ_stuck (fuel hash2 : Nat) (c : Cfg) (h : Nat) (k : K)
    (v : V) (s : MapState K V) (e₀ : PEntry K V)
    (hslot : slotAt s (hash2 % c.Size) = some e₀)
    (he : ¬ e₀.hash = h) (h0 : e₀.hash = 0) :
    goeAux c h k v s hash2 (fuel+1) = goeAux c h k v s hash2 fuel := by
  simp only [goeAux, hslot]
  rw [if_neg he, if_neg (by simp [h0])]

theorem probeStep_advance (c : Cfg) (s : MapState K V) (h hash2 : Nat)
    (e₀ : PEntry K V) (hslot : slotAt s (hash2 % c.Size) = some e₀)
    (he : ¬ e₀.hash = h) (h0 : ¬ e₀.hash = 0) :
    probeStep c s h hash2 = c.Rehash hash2 := by
  simp only [probeStep, hslot]
  rw [if_neg he, if_pos h0]

theorem probeStep_stuck (c : Cfg) (s : MapState K V) (h hash2 : Nat)
    (e₀ : PEntry K V) (hslot : slotAt s (hash2 % c.Size) = some e₀)
    (he : ¬ e₀.hash = h) (h0 : e₀.hash = 0) :
    probeStep c s h hash2 = hash2 := by
  simp only [probeStep, hslot]
  rw [if_neg he, if_neg (by simp [h0])]

theorem probeSlot_zero (c : Cfg) (s : MapState K V) (h hash2 : Nat) :
    probeSlot c s h hash2 0 = slotAt s (hash2 % c.Size) := rfl

theorem probeSlot_succ (c : Cfg) (s : MapState K V) (h hash2 t : Nat) :
    probeSlot c s h hash2 (t+1) = probeSlot c s h (probeStep c s h hash2) t := rfl

theorem occNMB_succ (c : Cfg) (s : MapState K V) (h hash2 t : Nat) :
    occNMB c s h hash2 (t+1) = occNMB c s h (probeStep c s h hash2) t := rfl

theorem matchB_succ (c : Cfg) (s : MapState K V) (h hash2 t : Nat) :
    matchB c s h hash2 (t+1) = matchB c s h (probeStep c s h hash2) t := rfl

theorem emptyB_succ (c : Cfg) (s : MapState K V) (h hash2 t : Nat) :
    emptyB c s h hash2 (t+1) = emptyB c s h (probeStep c s h hash2) t := rfl

theorem occNMB_zero_some (c : Cfg) (s : MapState K V) (h hash2 : Nat)
    (e₀ : PEntry K V) (hslot : slotAt s (hash2 % c.Size) = some e₀) :
    occNMB c s h hash2 0 = decide (e₀.hash ≠ h) := by
  simp [occNMB, probeSlot, cursorAt, hslot]

theorem occNMB_zero_none (c : Cfg) (s : MapState K V) (h hash2 : Nat)
    (hslot : slotAt s (hash2 % c.Size) = none) :
    occNMB c s h hash2 0 = false := by
  simp [occNMB, probeSlot, cursorAt, hslot]

theorem matchB_zero_some (c : Cfg) (s : MapState K V) (h hash2 : Nat)
    (e₀ : PEntry K V) (hslot : slotAt s (hash2 % c.Size) = some e₀) :
    matchB c s h hash2 0 = decide (e₀.hash = h) := by
  simp [matchB, probeSlot, cursorAt, hslot]

theorem emptyB_zero (c : Cfg) (s : MapState K V) (h hash2 : Nat) :
    emptyB c s h hash2 0 = (slotAt s (hash2 % c.Size)).isNone := rfl

theorem getAux_eq_some_iff (c : Cfg) (s : MapState K V) (h : Nat) :
    ∀ (fuel hash2 : Nat) (e : PEntry K V),
      getAux c s h hash2 fuel = some e ↔
        ∃ t, t < fuel ∧ probeSlot c s h hash2 t = some e ∧ e.hash = h ∧
          ∀ j, j < t → occNMB c s h hash2 j = true := by
  intro fuel
  induction fuel with
  | zero =>
    intro hash2 e
    constructor
    · intro hg; exact absurd hg (by simp [getAux])
    · rintro ⟨t, ht, -⟩; omega
  | succ fuel ih =>
    intro hash2 e
    cases hslot : slotAt s (hash2 % c.Size) with
    | none =>
      constructor
      · intro hg
        rw [getAux_succ_none fuel hash2 c s h hslot] at hg
        exact absurd hg (by simp)
      · rintro ⟨t, ht, hps, hh, hocc⟩
        exfalso
        cases t with
        | zero =>
          rw [probeSlot_zero, hslot] at hps
          exact absurd hps (by simp)
        | succ t =>
          have h0 := hocc 0 (by omega)
          rw [occNMB_zero_none c s h hash2 hslot] at h0
          exact absurd h0 (by simp)
    | some e₀ =>
      by_cases he : e₀.hash = h
      · rw [getAux_succ_match fuel hash2 c s h e₀ hslot he]
        constructor
        · intro hg
          have : e₀ = e := by simpa using hg
          subst this
          exact ⟨0, by omega, by rw [probeSlot_zero, hslot], he,
            fun j hj => absurd hj (by omega)⟩
        · rintro ⟨t, ht, hps, hh, hocc⟩
          cases t with
          | zero =>
            rw [probeSlot_zero, hslot] at hps
            exact hps
          | succ t =>
            have h0 := hocc 0 (by omega)
            rw [occNMB_zero_some c s h hash2 e₀ hslot] at h0
            simp [he] at h0
      · have hadv : ∀ c2', probeStep c s h hash2 = c2' →
            getAux c s h hash2 (fuel+1) = getAux c s h c2' fuel →
            (getAux c s h hash2 (fuel+1) = some e ↔
              ∃ t, t < fuel + 1 ∧ probeSlot c s h hash2 t = some e ∧
                e.hash = h ∧ ∀ j, j < t → occNMB c s h hash2 j = true) := by
          intro c2' hstep hunfold
          rw [hunfold, ih c2' e]
          constructor
          · rintro ⟨t, ht, hps, hh, hocc⟩
            refine ⟨t+1, by omega, ?_, hh, ?_⟩
            · rw [probeSlot_succ, hstep]; exact hps
            · intro j hj
              cases j with
              | zero =>
                rw [occNMB_zero_some c s h hash2 e₀ hslot]
                simp [he]
              | succ j =>
                rw [occNMB_succ, hstep]
                exact hocc j (by omega)
          · rintro ⟨t, ht, hps, hh, hocc⟩
            cases t with
            | zero =>
              rw [probeSlot_zero, hslot] at hps
              have : e₀ = e := by simpa using hps
              exact absurd (this ▸ hh) he
            | succ t =>
              rw [probeSlot_succ, hstep] at hps
              refine ⟨t, by omega, hps, hh, ?_⟩
              intro j hj
              have := hocc (j+1) (by omega)
              rw [occNMB_succ, hstep] at this
              exact this
        by_cases h0 : e₀.hash = 0
        · exact hadv hash2 (probeStep_stuck c s h hash2 e₀ hslot he h0)
            (getAux_succ_stuck fuel hash2 c s h e₀ hslot he h0)
        · exact hadv (c.Rehash hash2)
            (probeStep_advance c s h hash2 e₀ hslot he h0)
            (getAux_succ_advance fuel hash2 c s h e₀ hslot he h0)

theorem getAux_eq_none_iff (c : Cfg) (s : MapState K V) (h : Nat) :
    ∀ (fuel hash2 : Nat),
      getAux c s h hash2 fuel = none ↔
        (∃ t, t < fuel ∧ (∀ j, j < t → occNMB c s h hash2 j = true) ∧
          emptyB c s h hash2 t = true)
        ∨ (∀ t, t < fuel → matchB c s h hash2 t = false) := by
  intro fuel
  induction fuel with
  | zero =>
    intro hash2
    constructor
    · intro hg; right; intro t ht; omega
    · intro hg; rfl
  | succ fuel ih =>
    intro hash2
    cases hslot : slotAt s (hash2 % c.Size) with
    | none =>
      rw [getAux_succ_none fuel hash2 c s h hslot]
      constructor
      · intro hg
        left
        exact ⟨0, by omega, fun j hj => absurd hj (by omega),
          by rw [emptyB_zero, hslot]; rfl⟩
      · intro hg; rfl
    | some e₀ =>
      by_cases he : e₀.hash = h
      · rw [getAux_succ_match fuel hash2 c s h e₀ hslot he]
        constructor
        · intro hg; exact absurd hg (by simp)
        · rintro (⟨t, ht, hocc, hemp⟩ | hm)
          · exfalso
            cases t with
            | zero =>
              rw [emptyB_zero, hslot] at hemp
              exact absurd hemp (by simp)
            | succ t =>
              have hj := hocc 0 (by omega)
              rw [occNMB_zero_some c s h hash2 e₀ hslot] at hj
              simp [he] at hj
          · exfalso
            have := hm 0 (by omega)
            rw [matchB_zero_some c s h hash2 e₀ hslot] at this
            simp [he] at this
      · have hadv : ∀ c2', probeStep c s h hash2 = c2' →
            getAux c s h hash2 (fuel+1) = getAux c s h c2' fuel →
            (getAux c s h hash2 (fuel+1) = none ↔
              (∃ t, t < fuel + 1 ∧ (∀ j, j < t → occNMB c s h hash2 j = true) ∧
                emptyB c s h hash2 t = true)
              ∨ (∀ t, t < fuel + 1 → matchB c s h hash2 t = false)) := by
          intro c2' hstep hunfold
          rw [hunfold, ih c2']
          constructor
          · rintro (⟨t, ht, hocc, hemp⟩ | hm)
            · left
              refine ⟨t+1, by omega, ?_, ?_⟩
              · intro j hj
                cases j with
                | zero =>
                  rw [occNMB_zero_some c s h hash2 e₀ hslot]
                  simp [he]
                | succ j =>
                  rw [occNMB_succ, hstep]
                  exact hocc j (by omega)
              · rw [emptyB_succ, hstep]; exact hemp
            · right
              intro t ht
              cases t with
              | zero =>
                rw [matchB_zero_some c s h hash2 e₀ hslot]
                simp [he]
              | succ t =>
                rw [matchB_succ, hstep]
                exact hm t (by omega)
          · rintro (⟨t, ht, hocc, hemp⟩ | hm)
            · cases t with
              | zero =>
                rw [emptyB_zero, hslot] at hemp
                exact absurd hemp (by simp)
              | succ t =>
                left
                refine ⟨t, by omega, ?_, ?_⟩
                · intro j hj
                  have := hocc (j+1) (by omega)
                  rw [occNMB_succ, hstep] at this
                  exact this
                · rw [emptyB_succ, hstep] at hemp; exact hemp
            · right
              intro t ht
              have := hm (t+1) (by omega)
              rw [matchB_succ, hstep] at this
              exact this
        by_cases h0 : e₀.hash = 0
        · exact hadv hash2 (probeStep_stuck c s h hash2 e₀ hslot he h0)
            (getAux_succ_stuck fuel hash2 c s h e₀ hslot he h0)
        · exact hadv (c.Rehash hash2)
            (probeStep_advance c s h hash2 e₀ hslot he h0)
            (getAux_succ_advance fuel hash2 c s h e₀ hslot he h0)

theorem occNMB_true_elim (c : Cfg) (s : MapState K V) (h hash2 : Nat)
    (H : occNMB c s h hash2 0 = true) :
    ∃ e₀, slotAt s (hash2 % c.Size) = some e₀ ∧ ¬ e₀.hash = h := by
  cases hslot : slotAt s (hash2 % c.Size) with
  | none =>
    rw [occNMB_zero_none c s h hash2 hslot] at H
    exact absurd H (by simp)
  | some e₀ =>
    rw [occNMB_zero_some c s h hash2 e₀ hslot] at H
    exact ⟨e₀, rfl, by simpa using H⟩

theorem getAux_exhaust (c : Cfg) (s : MapState K V) (h : Nat) :
    ∀ (fuel hash2 : Nat),
      (∀ t, t < fuel → occNMB c s h hash2 t = true) →
      getAux c s h hash2 fuel = none := by
  intro fuel
  induction fuel with
  | zero => intro hash2 H; rfl
  | succ fuel ih =>
    intro hash2 H
    obtain ⟨e₀, hslot, he⟩ := occNMB_true_elim c s h hash2 (H 0 (by omega))
    by_cases h0 : e₀.hash = 0
    · rw [getAux_succ_stuck fuel hash2 c s h e₀ hslot he h0]
      refine ih hash2 (fun t ht => ?_)
      have := H (t+1) (by omega)
      rw [occNMB_succ, probeStep_stuck c s h hash2 e₀ hslot he h0] at this
      exact this
    · rw [getAux_succ_advance fuel hash2 c s h e₀ hslot he h0]
      refine ih (c.Rehash hash2) (fun t ht => ?_)
      have := H (t+1) (by omega)
      rw [occNMB_succ, probeStep_advance c s h hash2 e₀ hslot he h0] at this
      exact this

theorem goeAux_exhaust (c : Cfg) (h : Nat) (k : K) (v : V)
    (s : MapState K V) :
    ∀ (fuel hash2 : Nat),
      (∀ t, t < fuel → occNMB c s h hash2 t = true) →
      goeAux c h k v s hash2 fuel = (s, c.Size, false) := by
  intro fuel
  induction fuel with
  | zero =>
    intro hash2 H
    show (s, iterInit c s c.Size, false) = (s, c.Size, false)
    rw [iterInit_end]
  | succ fuel ih =>
    intro hash2 H
    obtain ⟨e₀, hslot, he⟩ := occNMB_true_elim c s h hash2 (H 0 (by omega))
    by_cases h0 : e₀.hash = 0
    · rw [goeAux_succ_stuck fuel hash2 c h k v s e₀ hslot he h0]
      refine ih hash2 (fun t ht => ?_)
      have := H (t+1) (by omega)
      rw [occNMB_succ, probeStep_stuck c s h hash2 e₀ hslot he h0] at this
      exact this
    · rw [goeAux_succ_advance fuel hash2 c h k v s e₀ hslot he h0]
      refine ih (c.Rehash hash2) (fun t ht => ?_)
      have := H (t+1) (by omega)
      rw [occNMB_succ, probeStep_advance c s h hash2 e₀ hslot he h0] at this
      exact this

theorem C3Inv_update_thread (c : Cfg) (h : Nat) (k : K) (σ : Sys K V)
    (i : Nat) (t : TState) (v : V) (t' : TState)
    (hti : σ.threads[i]? = some (t, v))
    (hInv : C3Inv c h k σ)
    (hshape : t' = TState.load h 0 ∨ t' = TState.cas h 0 ∨
      t' = TState.done (h % c.Size) true ∨
      t' = TState.done (h % c.Size) false)
    (hdt : doneTrue t = doneTrue t')
    (hdf : t' = TState.done (h % c.Size) false →
      (slotAt σ.s (h % c.Size)).isSome = true) :
    C3Inv c h k ⟨σ.s, σ.threads.set i (t', v)⟩ := by
  obtain ⟨h1, h2, h3, h4, h5, h6⟩ := hInv
  have hcount : (σ.threads.set i (t', v)).countP (fun tv => doneTrue tv.1)
      = σ.threads.countP (fun tv => doneTrue tv.1) := by
    have hc := countP_set (fun tv => doneTrue tv.1) σ.threads i (t, v) (t', v) hti
    simp only [hdt] at hc
    omega
  refine ⟨h1, h2, h3, ?_, ?_, ?_⟩
  · intro tv hmem
    rcases List.mem_or_eq_of_mem_set hmem with hold | hnew
    · exact h4 tv hold
    · rw [hnew]
      exact hshape
  · dsimp only
    rw [hcount]
    exact h5
  · intro tv hmem hdone
    rcases List.mem_or_eq_of_mem_set hmem with hold | hnew
    · exact h6 tv hold hdone
    · rw [hnew] at hdone
      exact hdf hdone

theorem C3Inv_publish (c : Cfg) (h : Nat) (k : K) (hS : 0 < c.Size)
    (σ : Sys K V) (i : Nat) (t : TState) (v : V)
    (hti : σ.threads[i]? = some (t, v))
    (hInv : C3Inv c h k σ)
    (hdt : doneTrue t = false)
    (hb : slotAt σ.s (h % c.Size) = none) :
    C3Inv c h k
      ⟨⟨σ.s.slots.set (h % c.Size) (some ⟨σ.s.nextId, h, k, v⟩),
          σ.s.nextId + 1⟩,
        σ.threads.set i (TState.done (h % c.Size) true, v)⟩ := by
  obtain ⟨h1, h2, h3, h4, h5, h6⟩ := hInv
  have hbS : h % c.Size < c.Size := Nat.mod_lt _ hS
  have hset : slotAt
      (⟨σ.s.slots.set (h % c.Size) (some ⟨σ.s.nextId, h, k, v⟩),
        σ.s.nextId + 1⟩ : MapState K V) (h % c.Size)
      = some ⟨σ.s.nextId, h, k, v⟩ :=
    slotAt_mk_set_self _ _ _ _ (by rw [h1]; exact hbS)
  have hcount0 : σ.threads.countP (fun tv => doneTrue tv.1) = 0 := by
    rcases h5 with ⟨-, hc⟩ | ⟨hs, -⟩
    · exact hc
    · rw [hb] at hs
      exact absurd hs (by simp)
  have hcount1 : (σ.threads.set i (TState.done (h % c.Size) true, v)).countP
      (fun tv => doneTrue tv.1) = 1 := by
    have hc := countP_set (fun tv => doneTrue tv.1) σ.threads i (t, v)
      (TState.done (h % c.Size) true, v) hti
    simp only [hdt] at hc
    have e1 : (if (false = true) then (1:Nat) else 0) = 0 := rfl
    have e2 : (if (doneTrue (TState.done (h % c.Size) true) = true)
        then (1:Nat) else 0) = 1 := rfl
    rw [e1, e2] at hc
    omega
  refine ⟨?_, ?_, ?_, ?_, ?_, ?_⟩
  · dsimp only
    rw [List.length_set]
    exact h1
  · intro j hj
    rw [slotAt_mk_set_ne σ.s.slots (σ.s.nextId + 1) (h % c.Size) j
      (some ⟨σ.s.nextId, h, k, v⟩) (fun hcontra => hj hcontra.symm)]
    exact h2 j hj
  · intro e he
    rw [hset] at he
    have : (⟨σ.s.nextId, h, k, v⟩ : PEntry K V) = e := by simpa using he
    rw [← this]
    exact ⟨rfl, rfl⟩
  · intro tv hmem
    rcases List.mem_or_eq_of_mem_set hmem with hold | hnew
    · exact h4 tv hold
    · rw [hnew]
      right; right; left; rfl
  · right
    refine ⟨by rw [hset]; rfl, hcount1⟩
  · intro tv hmem hdone
    rw [hset]
    rfl

theorem sysStep_preserves_C3Inv (c : Cfg) (h : Nat) (k : K)
    (hM : 0 < c.MaxTries) (hS : 0 < c.Size) (σ : Sys K V) (i : Nat)
    (hInv : C3Inv c h k σ) :
    C3Inv c h k (sysStep c h k σ i) := by
  cases hti : σ.threads[i]? with
  | none =>
    simpa [sysStep, hti] using hInv
  | some tv =>
    obtain ⟨t, v⟩ := tv
    have hmem : (t, v) ∈ σ.threads := List.getElem?_mem hti
    have hshape := hInv.2.2.2.1 _ hmem
    have hbS : h % c.Size < c.Size := Nat.mod_lt _ hS
    simp only [sysStep, hti]
    rcases hshape with h1 | h1 | h1 | h1 <;> subst h1
    · -- about to load
      cases hb : slotAt σ.s (h % c.Size) with
      | none =>
        simp only [tStep, if_pos hM, hb]
        exact C3Inv_update_thread c h k σ i _ v _ hti hInv
          (Or.inr (Or.inl rfl)) rfl (by intro hcontra; cases hcontra)
      | some e =>
        obtain ⟨heh, -⟩ := hInv.2.2.1 e hb
        have hiter : iterInit c σ.s (h % c.Size) = h % c.Size :=
          iterInit_occupied c σ.s _ hbS e hb
        simp only [tStep, if_pos hM, hb, if_pos heh, hiter]
        exact C3Inv_update_thread c h k σ i _ v _ hti hInv
          (Or.inr (Or.inr (Or.inr rfl))) rfl
          (fun _ => by rw [hb]; rfl)
    · -- about to CAS
      cases hb : slotAt σ.s (h % c.Size) with
      | none =>
        have hiter : iterInit c
            (⟨σ.s.slots.set (h % c.Size) (some ⟨σ.s.nextId, h, k, v⟩),
              σ.s.nextId + 1⟩ : MapState K V) (h % c.Size)
            = h % c.Size :=
          iterInit_occupied c _ _ hbS _
            (slotAt_mk_set_self _ _ _ _ (by rw [hInv.1]; exact hbS))
        simp only [tStep, hb, hiter]
        exact C3Inv_publish c h k hS σ i _ v hti hInv rfl hb
      | some e =>
        obtain ⟨heh, -⟩ := hInv.2.2.1 e hb
        have hiter : iterInit c σ.s (h % c.Size) = h % c.Size :=
          iterInit_occupied c σ.s _ hbS e hb
        simp only [tStep, hb, if_pos heh, hiter]
        exact C3Inv_update_thread c h k σ i _ v _ hti hInv
          (Or.inr (Or.inr (Or.inr rfl))) rfl
          (fun _ => by rw [hb]; rfl)
    · -- already returned true
      simp only [tStep]
      exact C3Inv_update_thread c h k σ i _ v _ hti hInv
        (Or.inr (Or.inr (Or.inl rfl))) rfl (by intro hcontra; cases hcontra)
    · -- already returned false
      simp only [tStep]
      exact C3Inv_update_thread c h k σ i _ v _ hti hInv
        (Or.inr (Or.inr (Or.inr rfl))) rfl
        (fun _ => hInv.2.2.2.2.2 _ hmem rfl)

theorem sysRun_preserves_C3Inv (c : Cfg) (h : Nat) (k : K)
    (hM : 0 < c.MaxTries) (hS : 0 < c.Size) :
    ∀ (sched : List Nat) (σ : Sys K V), C3Inv c h k σ →
      C3Inv c h k (sysRun c h k σ sched) := by
  intro sched
  induction sched with
  | nil => intro σ hInv; exact hInv
  | cons i sched ih =>
    intro σ hInv
    exact ih _ (sysStep_preserves_C3Inv c h k hM hS σ i hInv)

theorem sysStep_threads_length (c : Cfg) (h : Nat) (k : K) (σ : Sys K V)
    (i : Nat) :
    (sysStep c h k σ i).threads.length = σ.threads.length := by
  cases hti : σ.threads[i]? with
  | none => simp [sysStep, hti]
  | some tv =>
    obtain ⟨t, v⟩ := tv
    simp [sysStep, hti]

theorem sysRun_threads_length (c : Cfg) (h : Nat) (k : K) :
    ∀ (sched : List Nat) (σ : Sys K V),
      (sysRun c h k σ sched).threads.length = σ.threads.length := by
  intro sched
  induction sched with
  | nil => intro σ; rfl
  | cons i sched ih =>
    intro σ
    exact (ih _).trans (sysStep_threads_length c h k σ i)

/-! ### The claims -/

/-- C1: once a call to `get_or_emplace(k, ...)` has published an entry
for `k`, every subsequent `get(k)` — after any further sequence of map
operations — returns a reference to that same entry (same memory
location `s.nextId`, same bucket `b`), and every subsequent
`get_or_emplace(k, ...)` returns a handle to that same bucket with
`inserted = false` and leaves the map unchanged. -/
theorem claim_C1_address_stability (c : Cfg) (Hash : K → Nat) (k : K)
    (v v' : V) (s s₁ : MapState K V) (b : Nat) (ops : List (Op K V))
    (hS : 0 < c.Size) (hlen : s.slots.length = c.Size)
    (hpub : getOrEmplace c Hash s k v = (s₁, b, true)) :
    slotAt s₁ b = some ⟨s.nextId, Hash k, k, v⟩ ∧
    get c Hash (runOps c Hash s₁ ops) k = some ⟨s.nextId, Hash k, k, v⟩ ∧
    slotAt (runOps c Hash s₁ ops) b = some ⟨s.nextId, Hash k, k, v⟩ ∧
    getOrEmplace c Hash (runOps c Hash s₁ ops) k v'
      = (runOps c Hash s₁ ops, b, false) := by
  obtain ⟨h1, h2, h3⟩ :=
    goe_publish_spec c (Hash k) k hS c.MaxTries (Hash k) v s s₁ b hpub hlen
  have hmono : ∀ i e, slotAt s₁ i = some e →
      slotAt (runOps c Hash s₁ ops) i = some e :=
    fun i e hi => runOps_preserves_slot c Hash ops s₁ i e hi
  obtain ⟨hg, hgoe⟩ := h3 (runOps c Hash s₁ ops) hmono
  exact ⟨h1, hg, hmono b _ h1, hgoe v'⟩

theorem claim_C1_address_stability_witness :
    0 < (⟨4, 4, id⟩ : Cfg).Size ∧
    (⟨List.replicate 4 none, 0⟩ : MapState Nat Nat).slots.length
      = (⟨4, 4, id⟩ : Cfg).Size ∧
    getOrEmplace ⟨4, 4, id⟩ (fun n => n)
        (⟨List.replicate 4 none, 0⟩ : MapState Nat Nat) 1 10
      = (⟨[none, some ⟨0, 1, 1, 10⟩, none, none], 1⟩, 1, true) ∧
    (slotAt (⟨[none, some ⟨0, 1, 1, 10⟩, none, none], 1⟩ : MapState Nat Nat) 1
        = some ⟨0, 1, 1, 10⟩ ∧
      get ⟨4, 4, id⟩ (fun n => n)
          (runOps ⟨4, 4, id⟩ (fun n => n)
            ⟨[none, some ⟨0, 1, 1, 10⟩, none, none], 1⟩
            [Op.emplace 2 20, Op.get 1, Op.iter 0]) 1
        = some ⟨0, 1, 1, 10⟩ ∧
      slotAt (runOps ⟨4, 4, id⟩ (fun n => n)
            ⟨[none, some ⟨0, 1, 1, 10⟩, none, none], 1⟩
            [Op.emplace 2 20, Op.get 1, Op.iter 0]) 1
        = some ⟨0, 1, 1, 10⟩ ∧
      getOrEmplace ⟨4, 4, id⟩ (fun n => n)
          (runOps ⟨4, 4, id⟩ (fun n => n)
            ⟨[none, some ⟨0, 1, 1, 10⟩, none, none], 1⟩
            [Op.emplace 2 20, Op.get 1, Op.iter 0]) 1 99
        = (runOps ⟨4, 4, id⟩ (fun n => n)
            ⟨[none, some ⟨0, 1, 1, 10⟩, none, none], 1⟩
            [Op.emplace 2 20, Op.get 1, Op.iter 0], 1, false)) :=
  ⟨by decide, by decide, by decide,
    claim_C1_address_stability ⟨4, 4, id⟩ (fun n => n) 1 10 99
      ⟨List.replicate 4 none, 0⟩ ⟨[none, some ⟨0, 1, 1, 10⟩, none, none], 1⟩
      1 [Op.emplace 2 20, Op.get 1, Op.iter 0]
      (by decide) (by decide) (by decide)⟩

/-- C2: under every sequence of `get`, `get_or_emplace` and iteration
operations, a slot that holds an entry keeps that very entry (it never
reverts to empty and the entry is never replaced); moreover one
`get_or_emplace` call either leaves the map unchanged or performs
exactly one publish, into a single slot that was empty, of a single
freshly allocated element (the successful compare-and-swap). -/
theorem claim_C2_slot_write_once (c : Cfg) (Hash : K → Nat)
    (s : MapState K V) (ops : List (Op K V)) (i : Nat) (e : PEntry K V)
    (k : K) (v : V) (hocc : slotAt s i = some e) :
    slotAt (runOps c Hash s ops) i = some e ∧
    emplacePublishFrame c Hash s k v := by
  refine ⟨runOps_preserves_slot c Hash ops s i e hocc, ?_⟩
  unfold emplacePublishFrame getOrEmplace
  exact goeAux_frame c (Hash k) k v c.MaxTries (Hash k) s

theorem claim_C2_slot_write_once_witness :
    slotAt (⟨[some ⟨0, 5, 7, 70⟩, none], 3⟩ : MapState Nat Nat) 0
      = some ⟨0, 5, 7, 70⟩ ∧
    (slotAt (runOps ⟨2, 2, id⟩ (fun n => n)
        (⟨[some ⟨0, 5, 7, 70⟩, none], 3⟩ : MapState Nat Nat)
        [Op.emplace 1 11, Op.get 5, Op.iter 0]) 0 = some ⟨0, 5, 7, 70⟩ ∧
      emplacePublishFrame ⟨2, 2, id⟩ (fun n => n)
        (⟨[some ⟨0, 5, 7, 70⟩, none], 3⟩ : MapState Nat Nat) 1 11) :=
  ⟨by decide,
    claim_C2_slot_write_once ⟨2, 2, id⟩ (fun n => n)
      ⟨[some ⟨0, 5, 7, 70⟩, none], 3⟩ [Op.emplace 1 11, Op.get 5, Op.iter 0]
      0 ⟨0, 5, 7, 70⟩ 1 11 (by decide)⟩

/-- C3: for one fixed key, when any number of concurrent
`get_or_emplace` calls for that key run to completion from a fresh map
under an arbitrary interleaving of their atomic loads and
compare-and-swaps, exactly one call returns `inserted = true`, every
call returns a handle positioned at the key's home bucket, and that
bucket holds the single published entry for the key. -/
theorem claim_C3_single_publish [DecidableEq K] (c : Cfg) (Hash : K → Nat)
    (k : K) (n₀ : Nat) (tvs : List (TState × V)) (sched : List Nat)
    (hM : 0 < c.MaxTries) (hS : 0 < c.Size)
    (hinit : tvs.all (fun tv => decide (tv.1 = TState.load (Hash k) 0)) = true)
    (hne : tvs ≠ [])
    (hdone : (sysRun c (Hash k) k ⟨⟨List.replicate c.Size none, n₀⟩, tvs⟩
        sched).threads.all (fun tv => isDone tv.1) = true) :
    (sysRun c (Hash k) k ⟨⟨List.replicate c.Size none, n₀⟩, tvs⟩
        sched).threads.countP (fun tv => doneTrue tv.1) = 1 ∧
    (sysRun c (Hash k) k ⟨⟨List.replicate c.Size none, n₀⟩, tvs⟩
        sched).threads.all (fun tv => doneAt (Hash k % c.Size) tv.1) = true ∧
    slotIsEntry (sysRun c (Hash k) k ⟨⟨List.replicate c.Size none, n₀⟩, tvs⟩
        sched).s (Hash k % c.Size) (Hash k) k = true := by
  have hinit' : ∀ tv ∈ tvs, tv.1 = TState.load (Hash k) 0 :=
    fun tv hm => of_decide_eq_true (List.all_eq_true.mp hinit tv hm)
  have hInv₀ : C3Inv c (Hash k) k
      (⟨⟨List.replicate c.Size none, n₀⟩, tvs⟩ : Sys K V) := by
    refine ⟨List.length_replicate c.Size none, ?_, ?_, ?_, ?_, ?_⟩
    · intro i _
      exact slotAt_replicate_none c.Size n₀ i
    · intro e he
      rw [slotAt_replicate_none] at he
      exact absurd he (by simp)
    · intro tv hm
      exact Or.inl (hinit' tv hm)
    · left
      refine ⟨slotAt_replicate_none c.Size n₀ _, List.countP_eq_zero.mpr ?_⟩
      intro tv hm
      rw [hinit' tv hm]
      simp [doneTrue]
    · intro tv hm hdf
      rw [hinit' tv hm] at hdf
      exact absurd hdf (by simp)
  have hInv := sysRun_preserves_C3Inv c (Hash k) k hM hS sched _ hInv₀
  obtain ⟨i1, i2, i3, i4, i5, i6⟩ := hInv
  have hdone' := List.all_eq_true.mp hdone
  have hall : ∀ tv ∈ (sysRun c (Hash k) k
      ⟨⟨List.replicate c.Size none, n₀⟩, tvs⟩ sched).threads,
      tv.1 = TState.done (Hash k % c.Size) true ∨
      tv.1 = TState.done (Hash k % c.Size) false := by
    intro tv hm
    rcases i4 tv hm with hsh | hsh | hsh | hsh
    · have := hdone' tv hm
      rw [hsh] at this
      exact absurd this (by simp [isDone])
    · have := hdone' tv hm
      rw [hsh] at this
      exact absurd this (by simp [isDone])
    · exact Or.inl hsh
    · exact Or.inr hsh
  have hlenpos : 0 < (sysRun c (Hash k) k
      ⟨⟨List.replicate c.Size none, n₀⟩, tvs⟩ sched).threads.length := by
    rw [sysRun_threads_length]
    exact List.length_pos.mpr hne
  rcases i5 with ⟨hnone, hzero⟩ | ⟨hsome, hone⟩
  · exfalso
    obtain ⟨tv, hm⟩ := List.exists_mem_of_ne_nil _
      (List.ne_nil_of_length_pos hlenpos)
    rcases hall tv hm with hsh | hsh
    · have := List.countP_eq_zero.mp hzero tv hm
      rw [hsh] at this
      exact this (by simp [doneTrue])
    · have := i6 tv hm hsh
      rw [hnone] at this
      exact absurd this (by simp)
  · refine ⟨hone, ?_, ?_⟩
    · refine List.all_eq_true.mpr (fun tv hm => ?_)
      rcases hall tv hm with hsh | hsh <;>
        · rw [hsh]
          simp [doneAt]
    · obtain ⟨e, he⟩ := Option.isSome_iff_exists.mp hsome
      obtain ⟨hh, hk⟩ := i3 e he
      simp [slotIsEntry, he, hh, hk]

theorem claim_C3_single_publish_witness :
    0 < (⟨4, 4, id⟩ : Cfg).MaxTries ∧ 0 < (⟨4, 4, id⟩ : Cfg).Size ∧
    (([(TState.load 1 0, 10), (TState.load 1 0, 20)] :
        List (TState × Nat)).all
      (fun tv => decide (tv.1 = TState.load 1 0))) = true ∧
    ([(TState.load 1 0, 10), (TState.load 1 0, 20)] :
        List (TState × Nat)) ≠ [] ∧
    (sysRun ⟨4, 4, id⟩ 1 1
        ⟨⟨List.replicate 4 none, 0⟩,
          [(TState.load 1 0, 10), (TState.load 1 0, 20)]⟩
        [0, 0, 1]).threads.all (fun tv => isDone tv.1) = true ∧
    ((sysRun ⟨4, 4, id⟩ 1 1
        ⟨⟨List.replicate 4 none, 0⟩,
          [(TState.load 1 0, 10), (TState.load 1 0, 20)]⟩
        [0, 0, 1]).threads.countP (fun tv => doneTrue tv.1) = 1 ∧
      (sysRun ⟨4, 4, id⟩ 1 1
        ⟨⟨List.replicate 4 none, 0⟩,
          [(TState.load 1 0, 10), (TState.load 1 0, 20)]⟩
        [0, 0, 1]).threads.all (fun tv => doneAt 1 tv.1) = true ∧
      slotIsEntry (sysRun ⟨4, 4, id⟩ 1 1
        ⟨⟨List.replicate 4 none, 0⟩,
          [(TState.load 1 0, 10), (TState.load 1 0, 20)]⟩
        [0, 0, 1]).s 1 1 1 = true) :=
  ⟨by decide, by decide, by decide, by decide, by decide,
    claim_C3_single_publish ⟨4, 4, id⟩ (fun n => n) 1 0
      [(TState.load 1 0, 10), (TState.load 1 0, 20)] [0, 0, 1]
      (by decide) (by decide) (by decide) (by decide) (by decide)⟩

/-- C4: the claim states that on a compare-and-swap failure where the
observed entry's stored hash is 0 and differs from the candidate's hash,
the candidate is discarded (freed) before continuing.  The code does
not: in that branch (`lockfree-map.hh` lines 148-151 reached with
`elt->hash == 0`) no `delete newelt` is executed, so the candidate is
retained — neither published nor freed — and the call continues; the
candidate is leaked.  This theorem evaluates the faithful translation of
one loop iteration at such an input: the load sees an empty slot, the
CAS fails against an entry with stored hash 0 while the candidate's hash
is 1, and the candidate's fate is `retained`, not `freed`. -/
theorem claim_C4_candidate_leak :
    emplaceIter (⟨4, 4, id⟩ : Cfg) 1 1 (none : Option (PEntry Nat Nat))
        (some ⟨0, 0, 7, 70⟩) = (IterOut.cont 1, CandFate.retained) ∧
    CandFate.retained ≠ CandFate.freed ∧
    CandFate.retained ≠ CandFate.published := by
  decide

/-- C5, original statement, refuted: with `MaxTries = 4`, the constant
primary hash 7 for every key and the identity rehash over a capacity-8
map, after keys 1-4 have been handled, `get_or_emplace` on the 5th
distinct key does NOT return the end-handle: it returns the handle of
bucket `7 = 7 % 8` (the entry published for key 1, whose stored hash
matches the constant hash) with `inserted = false`, and `7` is not the
end-sentinel bucket `Size = 8`. -/
theorem claim_C5_counterexample :
    getOrEmplace cfg5 hash5 c5_s4 5 50 = (c5_s4, 7, false) ∧
    (7 : Nat) ≠ cfg5.Size := by
  decide

/-- C5, amended: with `MaxTries = 4`, a constant primary hash and an
identity rehash, the first key is inserted at the constant bucket; every
subsequent distinct key — including the 5th — deterministically returns
the handle of that same bucket with `inserted = false` (the constant
hash matches the published entry's stored hash, so the probe bound is
never exhausted and no end-handle is produced), rather than looping. -/
theorem claim_C5_probe_bound_const_hash :
    getOrEmplace cfg5 hash5 c5_s0 1 10 = (c5_s1, 7, true) ∧
    getOrEmplace cfg5 hash5 c5_s1 2 20 = (c5_s1, 7, false) ∧
    getOrEmplace cfg5 hash5 c5_s2 3 30 = (c5_s2, 7, false) ∧
    getOrEmplace cfg5 hash5 c5_s3 4 40 = (c5_s3, 7, false) ∧
    getOrEmplace cfg5 hash5 c5_s4 5 50 = (c5_s4, 7, false) ∧
    7 < cfg5.Size := by
  decide

/-- C6: a probe step of `get` or of `get_or_emplace` whose slot holds an
entry with stored hash 0 different from the target hash consumes exactly
one attempt (the iteration count rises by one, the remaining fuel drops
by one) without advancing the probe cursor: the continuation runs with
the same `hash2`, so the next attempt probes the same bucket. -/
theorem claim_C6_sentinel_no_advance (c : Cfg) (s : MapState K V)
    (h hash2 fuel : Nat) (k : K) (v : V) (e : PEntry K V)
    (hslot : slotAt s (hash2 % c.Size) = some e)
    (h0 : e.hash = 0) (hne : ¬ e.hash = h) :
    probeStep c s h hash2 = hash2 ∧
    getAux c s h hash2 (fuel+1) = getAux c s h hash2 fuel ∧
    (getFullAux c s h hash2 (fuel+1)).2.2
      = (getFullAux c s h hash2 fuel).2.2 + 1 ∧
    goeAux c h k v s hash2 (fuel+1) = goeAux c h k v s hash2 fuel ∧
    (goeFullAux c h k v s hash2 (fuel+1)).2
      = (goeFullAux c h k v s hash2 fuel).2 + 1 := by
  refine ⟨probeStep_stuck c s h hash2 e hslot hne h0,
    getAux_succ_stuck fuel hash2 c s h e hslot hne h0, ?_,
    goeAux_succ_stuck fuel hash2 c h k v s e hslot hne h0, ?_⟩
  · simp only [getFullAux, hslot]
    rw [if_neg hne, if_neg (by simp [h0])]
  · simp only [goeFullAux, hslot]
    rw [if_neg hne, if_neg (by simp [h0])]

theorem claim_C6_sentinel_no_advance_witness :
    slotAt (⟨[some ⟨0, 0, 9, 90⟩, none], 1⟩ : MapState Nat Nat)
        (0 % (⟨2, 2, id⟩ : Cfg).Size) = some ⟨0, 0, 9, 90⟩ ∧
    (⟨0, 0, 9, 90⟩ : PEntry Nat Nat).hash = 0 ∧
    ¬ (⟨0, 0, 9, 90⟩ : PEntry Nat Nat).hash = 1 ∧
    (probeStep ⟨2, 2, id⟩ (⟨[some ⟨0, 0, 9, 90⟩, none], 1⟩ : MapState Nat Nat)
        1 0 = 0 ∧
      getAux ⟨2, 2, id⟩ ⟨[some ⟨0, 0, 9, 90⟩, none], 1⟩ 1 0 (0+1)
        = getAux ⟨2, 2, id⟩ ⟨[some ⟨0, 0, 9, 90⟩, none], 1⟩ 1 0 0 ∧
      (getFullAux ⟨2, 2, id⟩ ⟨[some ⟨0, 0, 9, 90⟩, none], 1⟩ 1 0 (0+1)).2.2
        = (getFullAux ⟨2, 2, id⟩ ⟨[some ⟨0, 0, 9, 90⟩, none], 1⟩ 1 0 0).2.2
          + 1 ∧
      goeAux ⟨2, 2, id⟩ 1 3 33 ⟨[some ⟨0, 0, 9, 90⟩, none], 1⟩ 0 (0+1)
        = goeAux ⟨2, 2, id⟩ 1 3 33 ⟨[some ⟨0, 0, 9, 90⟩, none], 1⟩ 0 0 ∧
      (goeFullAux ⟨2, 2, id⟩ 1 3 33 ⟨[some ⟨0, 0, 9, 90⟩, none], 1⟩ 0
          (0+1)).2
        = (goeFullAux ⟨2, 2, id⟩ 1 3 33 ⟨[some ⟨0, 0, 9, 90⟩, none], 1⟩
            0 0).2 + 1) :=
  ⟨by decide, by decide, by decide,
    claim_C6_sentinel_no_advance ⟨2, 2, id⟩ ⟨[some ⟨0, 0, 9, 90⟩, none], 1⟩
      1 0 0 3 33 ⟨0, 0, 9, 90⟩ (by decide) (by decide) (by decide)⟩

/-- C7: `get(key)` returns empty exactly when either the probe chain is
broken by an empty slot before a hash match is found (every earlier
attempt probed an occupied, non-matching slot), or none of the first
`MaxTries` probe attempts hits an entry whose stored hash equals
`Hash(key)`; and it returns an entry exactly when that entry sits at the
first probe attempt whose stored hash matches, with every earlier
attempt occupied and non-matching. -/
theorem claim_C7_get_characterization (c : Cfg) (Hash : K → Nat)
    (s : MapState K V) (k : K) :
    (get c Hash s k = none ↔
      (∃ t, t < c.MaxTries ∧
        (∀ j, j < t → occNMB c s (Hash k) (Hash k) j = true) ∧
        emptyB c s (Hash k) (Hash k) t = true) ∨
      (∀ t, t < c.MaxTries → matchB c s (Hash k) (Hash k) t = false)) ∧
    (∀ e, get c Hash s k = some e ↔
      ∃ t, t < c.MaxTries ∧ probeSlot c s (Hash k) (Hash k) t = some e ∧
        e.hash = Hash k ∧
        ∀ j, j < t → occNMB c s (Hash k) (Hash k) j = true) :=
  ⟨getAux_eq_none_iff c s (Hash k) c.MaxTries (Hash k),
    fun e => getAux_eq_some_iff c s (Hash k) c.MaxTries (Hash k) e⟩

/-- C8: when every one of the `MaxTries` probe attempts of
`get_or_emplace` hits an occupied slot whose stored hash does not match
(no empty slot to publish into, no matching entry), the call returns the
end-handle (bucket `Size`) with `inserted = false` and the map state is
returned unchanged. -/
theorem claim_C8_insert_exhausted (c : Cfg) (Hash : K → Nat)
    (s : MapState K V) (k : K) (v : V)
    (H : (List.range c.MaxTries).all
      (fun t => occNMB c s (Hash k) (Hash k) t) = true) :
    getOrEmplace c Hash s k v = (s, c.Size, false) :=
  goeAux_exhaust c (Hash k) k v s c.MaxTries (Hash k)
    (fun t ht => List.all_eq_true.mp H t (List.mem_range.mpr ht))

theorem claim_C8_insert_exhausted_witness :
    (List.range (⟨1, 2, id⟩ : Cfg).MaxTries).all
      (fun t => occNMB ⟨1, 2, id⟩
        (⟨[some ⟨0, 2, 9, 0⟩], 1⟩ : MapState Nat Nat) 1 1 t) = true ∧
    getOrEmplace ⟨1, 2, id⟩ (fun n => n)
        (⟨[some ⟨0, 2, 9, 0⟩], 1⟩ : MapState Nat Nat) 1 5
      = (⟨[some ⟨0, 2, 9, 0⟩], 1⟩, (⟨1, 2, id⟩ : Cfg).Size, false) :=
  ⟨by decide,
    claim_C8_insert_exhausted ⟨1, 2, id⟩ (fun n => n)
      ⟨[some ⟨0, 2, 9, 0⟩], 1⟩ 1 5 (by decide)⟩

/-- C9: `get` and `get_or_emplace` terminate for every key and map
state: each executes at most `MaxTries` loop iterations, and when every
attempt hits an occupied non-matching slot (the bound is reached with
nothing found), `get` returns the deterministic failure `none` and
`get_or_emplace` returns the deterministic failure
`(end-handle, false)` with the map unchanged. -/
theorem claim_C9_probe_bound_termination (c : Cfg) (Hash : K → Nat)
    (s : MapState K V) (k : K) (v : V) :
    (getFullAux c s (Hash k) (Hash k) c.MaxTries).2.2 ≤ c.MaxTries ∧
    (goeFullAux c (Hash k) k v s (Hash k) c.MaxTries).2 ≤ c.MaxTries ∧
    ((List.range c.MaxTries).all
        (fun t => occNMB c s (Hash k) (Hash k) t) = true →
      get c Hash s k = none ∧
      getOrEmplace c Hash s k v = (s, c.Size, false)) :=
  ⟨getFullAux_count_le c s (Hash k) c.MaxTries (Hash k),
    goeFullAux_count_le c (Hash k) k v s c.MaxTries (Hash k),
    fun H =>
      ⟨getAux_exhaust c s (Hash k) c.MaxTries (Hash k)
          (fun t ht => List.all_eq_true.mp H t (List.mem_range.mpr ht)),
        goeAux_exhaust c (Hash k) k v s c.MaxTries (Hash k)
          (fun t ht => List.all_eq_true.mp H t (List.mem_range.mpr ht))⟩⟩

theorem claim_C9_probe_bound_termination_witness :
    (getFullAux ⟨1, 2, id⟩ (⟨[some ⟨0, 2, 9, 0⟩], 1⟩ : MapState Nat Nat)
        1 1 (⟨1, 2, id⟩ : Cfg).MaxTries).2.2 ≤ (⟨1, 2, id⟩ : Cfg).MaxTries ∧
    (goeFullAux ⟨1, 2, id⟩ 1 1 6 (⟨[some ⟨0, 2, 9, 0⟩], 1⟩ : MapState Nat Nat)
        1 (⟨1, 2, id⟩ : Cfg).MaxTries).2 ≤ (⟨1, 2, id⟩ : Cfg).MaxTries ∧
    get ⟨1, 2, id⟩ (fun n => n)
        (⟨[some ⟨0, 2, 9, 0⟩], 1⟩ : MapState Nat Nat) 1 = none ∧
    getOrEmplace ⟨1, 2, id⟩ (fun n => n)
        (⟨[some ⟨0, 2, 9, 0⟩], 1⟩ : MapState Nat Nat) 1 6
      = (⟨[some ⟨0, 2, 9, 0⟩], 1⟩, (⟨1, 2, id⟩ : Cfg).Size, false) :=
  ⟨(claim_C9_probe_bound_termination ⟨1, 2, id⟩ (fun n => n)
      ⟨[some ⟨0, 2, 9, 0⟩], 1⟩ 1 6).1,
    (claim_C9_probe_bound_termination ⟨1, 2, id⟩ (fun n => n)
      ⟨[some ⟨0, 2, 9, 0⟩], 1⟩ 1 6).2.1,
    (claim_C9_probe_bound_termination ⟨1, 2, id⟩ (fun n => n)
      ⟨[some ⟨0, 2, 9, 0⟩], 1⟩ 1 6).2.2 (by decide)⟩

/-- C10: `get` leaves the map completely unchanged — the state-passing
translation of its loop returns the state it was given, for every key
and every map state (the loop performs loads only: no slot is written,
no element allocated, modified or freed, the allocation counter is
untouched) — and its result agrees with the plain translation. -/
theorem claim_C10_get_no_write (c : Cfg) (Hash : K → Nat)
    (s : MapState K V) (k : K) :
    (getFullAux c s (Hash k) (Hash k) c.MaxTries).1 = s ∧
    (getFullAux c s (Hash k) (Hash k) c.MaxTries).2.1 = get c Hash s k :=
  ⟨getFullAux_fst c s (Hash k) c.MaxTries (Hash k),
    getFullAux_result c s (Hash k) c.MaxTries (Hash k)⟩

end LockfreeMap
